import Mathlib

/-!
Shallow embedding of `src/thug/AST/AST2.py` (class `AST`).

The esprima parse tree reaches the Python code as nested dictionaries
(`esprima.toDict`), so tree nodes are modelled as a JSON-like value type
`Val` with Python dictionary/list/string semantics for `k in v`, `v[k]`,
`v.get(k, None)`, truthiness and iteration.  Python `None` is `Val.null`.
Handlers that can raise (KeyError / TypeError / AttributeError) return
`Except PyErr`.  The recursive walk is written with an explicit fuel
parameter (the Python recursion is unbounded); `AST.new` supplies fuel
larger than the tree size, and fuel exhaustion is a distinguished error
that theorems rule out or condition away.
-/

namespace Thug

/-- A Python value as produced by `esprima.toDict`: the node model. -/
inductive Val where
  | str : String → Val
  | num : Int → Val
  | bool : Bool → Val
  | null : Val
  | dict : List (String × Val) → Val
  | list : List Val → Val
deriving Repr

mutual

/-- Decidable equality for `Val` (Python `==` on these values is
structural). -/
def Val.decEq : (a b : Val) → Decidable (a = b)
  | .str a, .str b =>
    if h : a = b then .isTrue (by rw [h]) else .isFalse (by simp [h])
  | .num a, .num b =>
    if h : a = b then .isTrue (by rw [h]) else .isFalse (by simp [h])
  | .bool a, .bool b =>
    if h : a = b then .isTrue (by rw [h]) else .isFalse (by simp [h])
  | .null, .null => .isTrue rfl
  | .dict a, .dict b =>
    match Val.decEqFields a b with
    | .isTrue h => .isTrue (by rw [h])
    | .isFalse h => .isFalse (fun e => h (by injection e))
  | .list a, .list b =>
    match Val.decEqList a b with
    | .isTrue h => .isTrue (by rw [h])
    | .isFalse h => .isFalse (fun e => h (by injection e))
  | .str _, .num _ => .isFalse nofun
  | .str _, .bool _ => .isFalse nofun
  | .str _, .null => .isFalse nofun
  | .str _, .dict _ => .isFalse nofun
  | .str _, .list _ => .isFalse nofun
  | .num _, .str _ => .isFalse nofun
  | .num _, .bool _ => .isFalse nofun
  | .num _, .null => .isFalse nofun
  | .num _, .dict _ => .isFalse nofun
  | .num _, .list _ => .isFalse nofun
  | .bool _, .str _ => .isFalse nofun
  | .bool _, .num _ => .isFalse nofun
  | .bool _, .null => .isFalse nofun
  | .bool _, .dict _ => .isFalse nofun
  | .bool _, .list _ => .isFalse nofun
  | .null, .str _ => .isFalse nofun
  | .null, .num _ => .isFalse nofun
  | .null, .bool _ => .isFalse nofun
  | .null, .dict _ => .isFalse nofun
  | .null, .list _ => .isFalse nofun
  | .dict _, .str _ => .isFalse nofun
  | .dict _, .num _ => .isFalse nofun
  | .dict _, .bool _ => .isFalse nofun
  | .dict _, .null => .isFalse nofun
  | .dict _, .list _ => .isFalse nofun
  | .list _, .str _ => .isFalse nofun
  | .list _, .num _ => .isFalse nofun
  | .list _, .bool _ => .isFalse nofun
  | .list _, .null => .isFalse nofun
  | .list _, .dict _ => .isFalse nofun

/-- Decidable equality for dictionary entry lists. -/
def Val.decEqFields : (a b : List (String × Val)) → Decidable (a = b)
  | [], [] => .isTrue rfl
  | [], _ :: _ => .isFalse nofun
  | _ :: _, [] => .isFalse nofun
  | (k, v) :: r, (k', v') :: r' =>
    if hk : k = k' then
      match Val.decEq v v' with
      | .isTrue hv =>
        match Val.decEqFields r r' with
        | .isTrue hr => .isTrue (by rw [hk, hv, hr])
        | .isFalse hr => .isFalse (fun e => hr (by injection e))
      | .isFalse hv =>
        .isFalse (fun e => by injection e with e1 e2; injection e1 with f1 f2; exact hv f2)
    else
      .isFalse (fun e => by injection e with e1 e2; injection e1 with f1 f2; exact hk f1)

/-- Decidable equality for value lists. -/
def Val.decEqList : (a b : List Val) → Decidable (a = b)
  | [], [] => .isTrue rfl
  | [], _ :: _ => .isFalse nofun
  | _ :: _, [] => .isFalse nofun
  | v :: r, v' :: r' =>
    match Val.decEq v v' with
    | .isTrue hv =>
      match Val.decEqList r r' with
      | .isTrue hr => .isTrue (by rw [hv, hr])
      | .isFalse hr => .isFalse (fun e => hr (by injection e))
    | .isFalse hv => .isFalse (fun e => hv (by injection e))

end

instance : DecidableEq Val := Val.decEq

mutual

/-- Executable structural size of a value (used only to compute a
sufficient fuel bound for the walk). -/
def Val.size : Val → Nat
  | .str _ => 1
  | .num _ => 1
  | .bool _ => 1
  | .null => 1
  | .dict fs => 1 + Val.sizeFields fs
  | .list xs => 1 + Val.sizeList xs

/-- Size of a dictionary entry list. -/
def Val.sizeFields : List (String × Val) → Nat
  | [] => 1
  | (_, v) :: r => 1 + Val.size v + Val.sizeFields r

/-- Size of a value list. -/
def Val.sizeList : List Val → Nat
  | [] => 1
  | v :: r => 1 + Val.size v + Val.sizeList r

end

/-- First-match association-list lookup (Python dict field lookup). -/
def lookupField : List (String × Val) → String → Option Val
  | [], _ => none
  | (k', v) :: rest, k => if k' = k then some v else lookupField rest k

/-- Python exceptions that the handlers can raise, plus fuel exhaustion
(an artifact of the bounded-recursion embedding, never raised by the
Python code). -/
inductive PyErr where
  | keyError : PyErr
  | typeError : PyErr
  | attributeError : PyErr
  | fuelExhausted : PyErr
deriving DecidableEq, Repr

namespace Val

/-- Python `v[k]` with a string key: dict lookup (KeyError when absent),
TypeError on any non-dict (string/list indices must be integers;
numbers are not subscriptable). -/
def item : Val → String → Except PyErr Val
  | .dict fs, k =>
    match lookupField fs k with
    | some w => .ok w
    | none => .error .keyError
  | _, _ => .error .typeError

/-- Python `k in v`: key test for dicts, element equality for lists,
substring test for strings, TypeError otherwise. -/
def hasKey : Val → String → Except PyErr Bool
  | .dict fs, k => .ok (fs.any (fun p => p.1 = k))
  | .list xs, k => .ok (xs.contains (Val.str k))
  | .str s, k => .ok (s.data.tails.any (fun t => k.data.isPrefixOf t))
  | _, _ => .error .typeError

/-- Python `v.get(k, None)`: only dicts have `.get`; AttributeError
otherwise. -/
def getDefault : Val → String → Except PyErr Val
  | .dict fs, k => .ok ((lookupField fs k).getD Val.null)
  | _, _ => .error .attributeError

/-- Python truthiness. -/
def truthy : Val → Bool
  | .str s => !s.isEmpty
  | .num n => n != 0
  | .bool b => b
  | .null => false
  | .dict fs => !fs.isEmpty
  | .list xs => !xs.isEmpty

/-- Python `for x in v`: elements of a list, keys of a dict,
one-character strings of a string, TypeError otherwise. -/
def iterElems : Val → Except PyErr (List Val)
  | .list xs => .ok xs
  | .dict fs => .ok (fs.map (fun p => Val.str p.1))
  | .str s => .ok (s.data.map (fun c => Val.str (String.mk [c])))
  | _ => .error .typeError

end Val

/-- `sc.encode('latin1')`: succeeds iff every character's codepoint fits
in one byte, yielding one byte per character; otherwise
UnicodeEncodeError. -/
def encodeLatin1 (s : String) : Option (List Nat) :=
  if s.data.all (fun c => c.toNat ≤ 255) then some (s.data.map Char.toNat) else none

/-- The dict `{'name': ..., 'scope': ...}` appended to `self.names`,
possibly augmented in place with the `'value'` key by
`onVariableDeclaration`.  Python `==` distinguishes the two shapes, which
`value : Option Val` mirrors. -/
structure NameRec where
  name : Val
  scope : Val
  value : Option Val
deriving DecidableEq, Repr

/-- The dict `{'type': ..., 'line': ..., 'scope': ...}` appended to
`self.breakpoints`. -/
structure BreakpointRec where
  type : Nat
  line : Val
  scope : Val
deriving DecidableEq, Repr

/-- The mutable collections living on one `AST` instance, plus the
ambient `log.ThugLogging.shellcodes` registry (modelled as `none` when
the attribute lookup raises, as in the standalone module) and the stored
`window` handle. -/
structure ASTState where
  names : List NameRec
  assignments : List NameRec
  breakpoints : List BreakpointRec
  calls : List Val
  shellcodes : List Val
  registry : Option (List (List Nat))
  window : Val
deriving DecidableEq, Repr

/-- Python `set.add` on a list kept duplicate-free. -/
def setAdd {α : Type} [DecidableEq α] (x : α) (xs : List α) : List α :=
  if x ∈ xs then xs else xs ++ [x]

def ASSIGN_BREAKPOINT : Nat := 0x00
def LOOP_BREAKPOINT : Nat := 0x01

/-- The tuple `AST.ASSIGN_OPERATORS`. -/
def ASSIGN_OPERATORS : List Val :=
  [.str "=", .str "+=", .str "-=", .str "*=", .str "/=", .str "%=",
   .str "<<=", .str ">>=", .str ">>>=", .str "|=", .str "^=", .str "&="]

/-- `AST.set_breakpoint`: record the deduplicated
`{'type': _type, 'line': stmt['loc']['end']['line'], 'scope': scope}`. -/
def set_breakpoint (stmt : Val) (scope : Val) (bptype : Nat) (st : ASTState) :
    Except PyErr ASTState :=
  match stmt.item "loc" with
  | .error e => .error e
  | .ok loc =>
  match loc.item "end" with
  | .error e => .error e
  | .ok en =>
  match en.item "line" with
  | .error e => .error e
  | .ok line =>
  let bp : BreakpointRec := ⟨bptype, line, scope⟩
  .ok (if bp ∈ st.breakpoints then st
       else { st with breakpoints := st.breakpoints ++ [bp] })

/-- `AST.add_shellcode`: only textual values of length at least 32
qualify; `log.ThugLogging.shellcodes.add(sc.encode('latin1'))` is tried
first and any failure (absent registry or non-latin1 text) falls back to
`self.shellcodes.add(sc)` with the original value. -/
def add_shellcode (sc : Val) (st : ASTState) : ASTState :=
  match sc with
  | .str s =>
    if s.length < 32 then st
    else
      match st.registry with
      | some reg =>
        match encodeLatin1 s with
        | some bs => { st with registry := some (setAdd bs reg) }
        | none => { st with shellcodes := setAdd sc st.shellcodes }
      | none => { st with shellcodes := setAdd sc st.shellcodes }
  | _ => st

/-- `AST.onLiteral`. -/
def onLiteral (litr : Val) (scope : Val) (st : ASTState) : Except PyErr ASTState :=
  if !litr.truthy then .ok st
  else
    match litr.getDefault "value" with
    | .error e => .error e
    | .ok value => .ok (if value.truthy then add_shellcode value st else st)

/-- `AST.onReturnStatement`. -/
def onReturnStatement (stmt : Val) (scope : Val) (st : ASTState) : Except PyErr ASTState :=
  if !stmt.truthy then .ok st
  else
    match stmt.hasKey "argument" with
    | .error e => .error e
    | .ok false => .ok st
    | .ok true =>
    match stmt.item "argument" with
    | .error e => .error e
    | .ok arg =>
    match arg.getDefault "value" with
    | .error e => .error e
    | .ok value => .ok (if value.truthy then add_shellcode value st else st)

/-- One iteration of the `for decl in item['declarations']` loop of
`AST.onVariableDeclaration`.  `decl['id']['name']` is unguarded, so a
declarator without `id` (or whose id has no `name`) raises.  The
`name['value'] = decl['init']['raw']` mutation rewrites, in place, the
record appended to `self.names` earlier in the same iteration (when one
was appended). -/
def handleDeclarator (decl : Val) (scope : Val) (st : ASTState) : Except PyErr ASTState :=
  match decl.hasKey "type" with
  | .error e => .error e
  | .ok false => .ok st
  | .ok true =>
  match decl.item "type" with
  | .error e => .error e
  | .ok t =>
  if t ≠ Val.str "VariableDeclarator" then .ok st else
  match decl.item "id" with
  | .error e => .error e
  | .ok idv =>
  match idv.item "name" with
  | .error e => .error e
  | .ok nm =>
  let name : NameRec := ⟨nm, scope, none⟩
  let st1 := if name ∈ st.names then st else { st with names := st.names ++ [name] }
  match decl.hasKey "init" with
  | .error e => .error e
  | .ok false => .ok st1
  | .ok true =>
  match set_breakpoint decl scope ASSIGN_BREAKPOINT st1 with
  | .error e => .error e
  | .ok st2 =>
  match decl.item "init" with
  | .error e => .error e
  | .ok init =>
  match init.hasKey "raw" with
  | .error e => .error e
  | .ok false => .ok st2
  | .ok true =>
  match init.item "raw" with
  | .error e => .error e
  | .ok raw =>
  let full : NameRec := ⟨nm, scope, some raw⟩
  let st3 := if name ∈ st.names then st2 else { st2 with names := st.names ++ [full] }
  .ok (if full ∈ st3.assignments then st3
       else { st3 with assignments := st3.assignments ++ [full] })

/-- `AST.onVariableDeclaration`. -/
def onVariableDeclaration (item : Val) (scope : Val) (st : ASTState) :
    Except PyErr ASTState :=
  match item.hasKey "declarations" with
  | .error e => .error e
  | .ok false => .ok st
  | .ok true =>
  match item.item "declarations" with
  | .error e => .error e
  | .ok decls =>
  match decls.iterElems with
  | .error e => .error e
  | .ok elems => elems.foldlM (fun s d => handleDeclarator d scope s) st

/-- One iteration of the `for p in stmt['expression']['arguments']` loop
of `AST.handleCallExpression`. -/
def handleCallArgument (p : Val) (scope : Val) (st : ASTState) : Except PyErr ASTState :=
  match p.hasKey "type" with
  | .error e => .error e
  | .ok false => .ok st
  | .ok true =>
  match p.item "type" with
  | .error e => .error e
  | .ok t => if t = Val.str "Literal" then onLiteral p scope st else .ok st

/-- `AST.handleCallExpression`. -/
def handleCallExpression (stmt : Val) (scope : Val) (st : ASTState) :
    Except PyErr ASTState :=
  match stmt.hasKey "expression" with
  | .error e => .error e
  | .ok false => .ok st
  | .ok true =>
  match stmt.item "expression" with
  | .error e => .error e
  | .ok expr =>
  match expr.hasKey "arguments" with
  | .error e => .error e
  | .ok false => .ok st
  | .ok true =>
  match expr.item "arguments" with
  | .error e => .error e
  | .ok args =>
  match args.iterElems with
  | .error e => .error e
  | .ok elems => elems.foldlM (fun s p => handleCallArgument p scope s) st

/-- `AST.onForStatement`. -/
def onForStatement (stmt : Val) (scope : Val) (st : ASTState) : Except PyErr ASTState :=
  set_breakpoint stmt scope LOOP_BREAKPOINT st

/-- `AST.onWhileStatement`. -/
def onWhileStatement (stmt : Val) (scope : Val) (st : ASTState) : Except PyErr ASTState :=
  set_breakpoint stmt scope LOOP_BREAKPOINT st

/-- `AST.onDoWhileStatement`. -/
def onDoWhileStatement (stmt : Val) (scope : Val) (st : ASTState) : Except PyErr ASTState :=
  set_breakpoint stmt scope LOOP_BREAKPOINT st

/-- `AST.onForInStatement`. -/
def onForInStatement (stmt : Val) (scope : Val) (st : ASTState) : Except PyErr ASTState :=
  set_breakpoint stmt scope LOOP_BREAKPOINT st

/-- The mutually recursive entry points of the walk: `AST.walk` (its
`for` loop split off as `walkList`), `AST._walk`, and the handlers that
re-enter the walk. -/
inductive Call where
  | walk (body : Val)
  | walkList (stmts : List Val)
  | walkItem (item : Val)
  | onExpressionStatement (stmt : Val)
  | handleAssignmentExpression (stmt : Val)
  | onFunctionDeclaration (decl : Val)
  | onIfStatement (stmt : Val)
  | onIfBranch (stmt : Val) (key : String)
deriving Repr

/-- The recursive walk, bounded by explicit fuel (the Python recursion is
unbounded; `AST.new` supplies fuel exceeding every reachable depth, and
`.fuelExhausted` is never the result then — see `run_no_fuelExhausted`). -/
def run : Nat → Call → Val → ASTState → Except PyErr ASTState
  | 0, _, _, _ => .error .fuelExhausted
  | fuel + 1, c, scope, st =>
    match c with
    | .walk body =>
      -- `for item in body: self._walk(item, scope)`.  Iterating a
      -- non-list yields only strings (dict keys / characters), and
      -- `_walk` raises TypeError on the first of them (`item['type']`)
      -- before any effect; non-iterables raise TypeError at once.
      match body with
      | .list stmts => run fuel (.walkList stmts) scope st
      | .dict [] => .ok st
      | .str s => if s.isEmpty then .ok st else .error .typeError
      | _ => .error .typeError
    | .walkList l =>
      match l with
      | [] => .ok st
      | item :: rest =>
        match run fuel (.walkItem item) scope st with
        | .error e => .error e
        | .ok st' => run fuel (.walkList rest) scope st'
    | .walkItem item =>
      -- `handler = getattr(self, "on{}".format(item['type']), None)`
      match item.item "type" with
      | .error e => .error e
      | .ok t =>
        if t = .str "ExpressionStatement" then run fuel (.onExpressionStatement item) scope st
        else if t = .str "VariableDeclaration" then onVariableDeclaration item scope st
        else if t = .str "FunctionDeclaration" then run fuel (.onFunctionDeclaration item) scope st
        else if t = .str "IfStatement" then run fuel (.onIfStatement item) scope st
        else if t = .str "ForStatement" then onForStatement item scope st
        else if t = .str "WhileStatement" then onWhileStatement item scope st
        else if t = .str "DoWhileStatement" then onDoWhileStatement item scope st
        else if t = .str "ForInStatement" then onForInStatement item scope st
        else if t = .str "Literal" then onLiteral item scope st
        else if t = .str "ReturnStatement" then onReturnStatement item scope st
        else .ok st
    | .onExpressionStatement stmt =>
      match stmt.hasKey "expression" with
      | .error e => .error e
      | .ok false => .ok st
      | .ok true =>
      match stmt.item "expression" with
      | .error e => .error e
      | .ok expr =>
      match expr.hasKey "type" with
      | .error e => .error e
      | .ok false => .ok st
      | .ok true =>
      match expr.item "type" with
      | .error e => .error e
      | .ok t =>
        if t = .str "AssignmentExpression" then run fuel (.handleAssignmentExpression stmt) scope st
        else if t = .str "CallExpression" then handleCallExpression stmt scope st
        else .ok st
    | .handleAssignmentExpression stmt =>
      match stmt.hasKey "expression" with
      | .error e => .error e
      | .ok false => .ok st
      | .ok true =>
      match stmt.item "expression" with
      | .error e => .error e
      | .ok expr =>
      match expr.hasKey "operator" with
      | .error e => .error e
      | .ok false => .ok st
      | .ok true =>
      match expr.item "operator" with
      | .error e => .error e
      | .ok op =>
      if op ∉ ASSIGN_OPERATORS then .ok st else
      match expr.item "left" with
      | .error e => .error e
      | .ok left =>
      match left.hasKey "name" with
      | .error e => .error e
      | .ok hasName =>
      let afterName : Except PyErr ASTState :=
        match hasName with
        | true =>
          match left.item "name" with
          | .error e => .error e
          | .ok nm =>
            let name : NameRec := ⟨nm, scope, none⟩
            .ok (if name ∈ st.names then st else { st with names := st.names ++ [name] })
        | false => .ok st
      match afterName with
      | .error e => .error e
      | .ok st1 =>
      match run fuel (.walkItem left) scope st1 with
      | .error e => .error e
      | .ok st2 =>
      match expr.item "right" with
      | .error e => .error e
      | .ok right =>
      match run fuel (.walkItem right) scope st2 with
      | .error e => .error e
      | .ok st3 => set_breakpoint stmt scope ASSIGN_BREAKPOINT st3
    | .onFunctionDeclaration decl =>
      match decl.hasKey "id" with
      | .error e => .error e
      | .ok false => .ok st
      | .ok true =>
      match decl.item "id" with
      | .error e => .error e
      | .ok idv =>
      match idv.hasKey "name" with
      | .error e => .error e
      | .ok false => .ok st
      | .ok true =>
      match idv.item "name" with
      | .error e => .error e
      | .ok funcName =>
      match decl.hasKey "body" with
      | .error e => .error e
      | .ok false => .ok st
      | .ok true =>
      match decl.item "body" with
      | .error e => .error e
      | .ok b =>
      match b.hasKey "body" with
      | .error e => .error e
      | .ok false => .ok st
      | .ok true =>
      match b.item "body" with
      | .error e => .error e
      | .ok bl => run fuel (.walk bl) funcName st
    | .onIfStatement stmt =>
      -- the handler processes the `alternate` block, then the
      -- `consequent` block, with the same cascade
      match run fuel (.onIfBranch stmt "alternate") scope st with
      | .error e => .error e
      | .ok st1 => run fuel (.onIfBranch stmt "consequent") scope st1
    | .onIfBranch stmt key =>
      match stmt.hasKey key with
      | .error e => .error e
      | .ok false => .ok st
      | .ok true =>
      match stmt.item key with
      | .error e => .error e
      | .ok node =>
      match node.getDefault "body" with
      | .error e => .error e
      | .ok body => if body.truthy then run fuel (.walk body) scope st else .ok st

/-- `AST.walk` with an explicit body. -/
def walk (fuel : Nat) (body : Val) (scope : Val) (st : ASTState) : Except PyErr ASTState :=
  run fuel (.walk body) scope st

/-- `AST._walk`. -/
def walkItem (fuel : Nat) (item : Val) (scope : Val) (st : ASTState) : Except PyErr ASTState :=
  run fuel (.walkItem item) scope st

/-- `AST.handleAssignmentExpression`. -/
def handleAssignmentExpression (fuel : Nat) (stmt : Val) (scope : Val) (st : ASTState) :
    Except PyErr ASTState :=
  run fuel (.handleAssignmentExpression stmt) scope st

/-- `AST.onExpressionStatement`. -/
def onExpressionStatement (fuel : Nat) (stmt : Val) (scope : Val) (st : ASTState) :
    Except PyErr ASTState :=
  run fuel (.onExpressionStatement stmt) scope st

/-- `AST.onFunctionDeclaration`. -/
def onFunctionDeclaration (fuel : Nat) (decl : Val) (scope : Val) (st : ASTState) :
    Except PyErr ASTState :=
  run fuel (.onFunctionDeclaration decl) scope st

/-- `AST.onIfStatement`. -/
def onIfStatement (fuel : Nat) (stmt : Val) (scope : Val) (st : ASTState) :
    Except PyErr ASTState :=
  run fuel (.onIfStatement stmt) scope st

/-- Fuel passed by `AST.new`: exceeds every recursion depth reachable
from `ast` (each level of the walk consumes at most five units before
descending into a structurally smaller value). -/
def FUEL (ast : Val) : Nat := 5 * ast.size + 10

/-- `AST.__init__`: initialize the empty collections, try to parse; on
parse failure log and return with the collections still empty.  A
successful parse is followed by `self.walk()` — which sits outside the
`try`, so exceptions raised while walking propagate to the caller. -/
def AST.new (parse : Except Unit Val) (window : Val)
    (registry : Option (List (List Nat))) : Except PyErr ASTState :=
  let st0 : ASTState := ⟨[], [], [], [], [], registry, window⟩
  match parse with
  | .error _ => .ok st0
  | .ok ast =>
    match ast.item "body" with
    | .error e => .error e
    | .ok body => run (FUEL ast) (.walk body) Val.null st0

/-! Concrete node builders, shaped like `esprima.toDict` output, for the
closed instances below. -/

/-- `{'start': {'line': a}, 'end': {'line': b}}` (only the lines the code
reads). -/
def mkLoc (startLine endLine : Nat) : Val :=
  .dict [("start", .dict [("line", .num startLine)]),
         ("end", .dict [("line", .num endLine)])]

/-- An `Identifier` node. -/
def mkIdent (name : String) : Val :=
  .dict [("type", .str "Identifier"), ("name", .str name)]

/-- A `Literal` node with a value and its raw source text. -/
def mkLiteral (value : Val) (raw : String) (line : Nat) : Val :=
  .dict [("type", .str "Literal"), ("value", value), ("raw", .str raw),
         ("loc", mkLoc line line)]

/-- A `VariableDeclarator` node, with optional initializer. -/
def mkDeclarator (name : String) (init : Option Val) (line : Nat) : Val :=
  .dict ([("type", .str "VariableDeclarator"), ("id", mkIdent name)] ++
         (match init with | some i => [("init", i)] | none => []) ++
         [("loc", mkLoc line line)])

/-- A `VariableDeclaration` statement node. -/
def mkVarDecl (decls : List Val) (line : Nat) : Val :=
  .dict [("type", .str "VariableDeclaration"), ("declarations", .list decls),
         ("loc", mkLoc line line)]

/-- An `ExpressionStatement` wrapping an `AssignmentExpression`. -/
def mkAssign (op : String) (left right : Val) (line : Nat) : Val :=
  .dict [("type", .str "ExpressionStatement"),
         ("expression",
          .dict [("type", .str "AssignmentExpression"), ("operator", .str op),
                 ("left", left), ("right", right)]),
         ("loc", mkLoc line line)]

/-- An `ExpressionStatement` wrapping a `CallExpression`. -/
def mkCallStmt (callee : Val) (args : List Val) (line : Nat) : Val :=
  .dict [("type", .str "ExpressionStatement"),
         ("expression",
          .dict [("type", .str "CallExpression"), ("callee", callee),
                 ("arguments", .list args)]),
         ("loc", mkLoc line line)]

/-- A `ReturnStatement` node. -/
def mkReturn (argument : Val) (line : Nat) : Val :=
  .dict [("type", .str "ReturnStatement"), ("argument", argument),
         ("loc", mkLoc line line)]

/-- A `FunctionDeclaration` node with a block body. -/
def mkFunctionDecl (name : String) (body : List Val) (startLine endLine : Nat) : Val :=
  .dict [("type", .str "FunctionDeclaration"), ("id", mkIdent name),
         ("body", .dict [("type", .str "BlockStatement"), ("body", .list body)]),
         ("loc", mkLoc startLine endLine)]

/-- A loop statement node of the given kind with a block body. -/
def mkLoop (kind : String) (body : List Val) (startLine endLine : Nat) : Val :=
  .dict [("type", .str kind),
         ("body", .dict [("type", .str "BlockStatement"), ("body", .list body)]),
         ("loc", mkLoc startLine endLine)]

/-- A `Program` node (`esprima.parse` result). -/
def mkProgram (body : List Val) : Val :=
  .dict [("type", .str "Program"), ("body", .list body)]

/-- The statement `x = true;` on line `n`: one of the N textually
distinct assignment statements of a scenario with assignments to the
same identifier on N different lines. -/
def mkAssignLine (x : String) (n : Nat) : Val :=
  mkAssign "=" (mkIdent x) (mkLiteral (.bool true) "true" n) n

/-! Verification vocabulary. -/

/-- `st'` extends `st`: the list collections only grow by appending at
the end (insertion order preserved, nothing removed), and `calls`,
`window` are untouched. -/
def Extends (st st' : ASTState) : Prop :=
  (∃ t, st'.names = st.names ++ t) ∧
  (∃ t, st'.assignments = st.assignments ++ t) ∧
  (∃ t, st'.breakpoints = st.breakpoints ++ t) ∧
  st'.calls = st.calls ∧ st'.window = st.window

/-- The value-free version of a binding record. -/
def NameRec.plain (r : NameRec) : NameRec := ⟨r.name, r.scope, none⟩

/-- The value-free records of `self.names` contain no duplicate
`(name, scope)` pair. -/
def PlainNodup (l : List NameRec) : Prop :=
  (l.filter (fun r => r.value = none)).Nodup

/-- Every record of `self.assignments` is represented in `self.names`:
either the record itself or its value-free version. -/
def AssignCovered (st : ASTState) : Prop :=
  ∀ a ∈ st.assignments, a ∈ st.names ∨ a.plain ∈ st.names

/-- The invariant each walk step preserves: the state only extends, the
value-free binding records stay duplicate-free, and assignment records
stay represented in `names`. -/
def WalkInv (st st' : ASTState) : Prop :=
  Extends st st' ∧
  (PlainNodup st.names → PlainNodup st'.names) ∧
  (AssignCovered st → AssignCovered st')

/-! Basic lemmas. -/

theorem Extends.self (st : ASTState) : Extends st st :=
  ⟨⟨[], by simp⟩, ⟨[], by simp⟩, ⟨[], by simp⟩, rfl, rfl⟩

theorem Extends.comp {s1 s2 s3 : ASTState} (h1 : Extends s1 s2) (h2 : Extends s2 s3) :
    Extends s1 s3 := by
  obtain ⟨⟨a1, ha1⟩, ⟨b1, hb1⟩, ⟨c1, hc1⟩, hl1, hw1⟩ := h1
  obtain ⟨⟨a2, ha2⟩, ⟨b2, hb2⟩, ⟨c2, hc2⟩, hl2, hw2⟩ := h2
  exact ⟨⟨a1 ++ a2, by simp [ha2, ha1]⟩, ⟨b1 ++ b2, by simp [hb2, hb1]⟩,
         ⟨c1 ++ c2, by simp [hc2, hc1]⟩, hl2.trans hl1, hw2.trans hw1⟩

theorem lookupField_any {fs : List (String × Val)} {k : String} {v : Val}
    (h : lookupField fs k = some v) : fs.any (fun p => p.1 = k) = true := by
  induction fs with
  | nil => simp [lookupField] at h
  | cons p rest ih =>
    obtain ⟨k', w⟩ := p
    by_cases hk : k' = k
    · simp [hk]
    · simp only [lookupField, if_neg hk] at h
      simp [ih h]

theorem hasKey_of_item {v w : Val} {k : String} (h : v.item k = .ok w) :
    v.hasKey k = .ok true := by
  cases v <;> try simp [Val.item] at h
  case dict fs =>
    cases hlk : lookupField fs k with
    | none => simp [Val.item, hlk] at h
    | some u => simp [Val.hasKey, lookupField_any hlk]

/-- Effect of `set_breakpoint` on success: only `breakpoints` can grow
(by appending at most the one record); everything else is untouched. -/
theorem set_breakpoint_ok {stmt scope : Val} {ty : Nat} {st st' : ASTState}
    (h : set_breakpoint stmt scope ty st = .ok st') :
    st'.names = st.names ∧ st'.assignments = st.assignments ∧
    (∃ t, st'.breakpoints = st.breakpoints ++ t) ∧
    st'.calls = st.calls ∧ st'.shellcodes = st.shellcodes ∧
    st'.registry = st.registry ∧ st'.window = st.window := by
  cases hl : stmt.item "loc" with
  | error e => simp [set_breakpoint, hl] at h
  | ok loc =>
  cases he : loc.item "end" with
  | error e => simp [set_breakpoint, hl, he] at h
  | ok en =>
  cases hn : en.item "line" with
  | error e => simp [set_breakpoint, hl, he, hn] at h
  | ok line =>
  simp only [set_breakpoint, hl, he, hn] at h
  split at h <;> (injection h with h; subst h)
  · exact ⟨rfl, rfl, ⟨[], by simp⟩, rfl, rfl, rfl, rfl⟩
  · exact ⟨rfl, rfl, ⟨[⟨ty, line, scope⟩], rfl⟩, rfl, rfl, rfl, rfl⟩

/-- `add_shellcode` never touches the other collections. -/
theorem add_shellcode_frame (sc : Val) (st : ASTState) :
    (add_shellcode sc st).names = st.names ∧
    (add_shellcode sc st).assignments = st.assignments ∧
    (add_shellcode sc st).breakpoints = st.breakpoints ∧
    (add_shellcode sc st).calls = st.calls ∧
    (add_shellcode sc st).window = st.window := by
  cases sc <;> simp [add_shellcode]
  case str s =>
  split
  · simp
  · cases st.registry <;> simp
    · cases encodeLatin1 s <;> simp

/-- `onLiteral` can only add to the shellcode stores. -/
theorem onLiteral_ok {litr scope : Val} {st st' : ASTState}
    (h : onLiteral litr scope st = .ok st') :
    st'.names = st.names ∧ st'.assignments = st.assignments ∧
    st'.breakpoints = st.breakpoints ∧ st'.calls = st.calls ∧
    st'.window = st.window := by
  unfold onLiteral at h
  split at h
  · injection h with h; subst h; exact ⟨rfl, rfl, rfl, rfl, rfl⟩
  · cases hv : litr.getDefault "value" with
    | error e => rw [hv] at h; cases h
    | ok value =>
      rw [hv] at h; injection h with h; subst h
      split
      · exact (add_shellcode_frame value st).imp id
          (fun p => p.imp id (fun q => q.imp id (fun r => r.imp id id)))
      · exact ⟨rfl, rfl, rfl, rfl, rfl⟩

/-- `onReturnStatement` can only add to the shellcode stores. -/
theorem onReturnStatement_ok {stmt scope : Val} {st st' : ASTState}
    (h : onReturnStatement stmt scope st = .ok st') :
    st'.names = st.names ∧ st'.assignments = st.assignments ∧
    st'.breakpoints = st.breakpoints ∧ st'.calls = st.calls ∧
    st'.window = st.window := by
  unfold onReturnStatement at h
  split at h
  · injection h with h; subst h; exact ⟨rfl, rfl, rfl, rfl, rfl⟩
  · cases ha : stmt.hasKey "argument" with
    | error e => simp [ha] at h
    | ok b =>
      cases b
      · simp only [ha] at h; injection h with h; subst h; exact ⟨rfl, rfl, rfl, rfl, rfl⟩
      · cases hg : stmt.item "argument" with
        | error e => simp [ha, hg] at h
        | ok arg =>
          cases hv : arg.getDefault "value" with
          | error e => simp [ha, hg, hv] at h
          | ok value =>
            simp only [ha, hg, hv] at h
            injection h with h; subst h
            split
            · exact (add_shellcode_frame value st).imp id
                (fun p => p.imp id (fun q => q.imp id (fun r => r.imp id id)))
            · exact ⟨rfl, rfl, rfl, rfl, rfl⟩

/-- `handleCallArgument` can only add to the shellcode stores. -/
theorem handleCallArgument_ok {p scope : Val} {st st' : ASTState}
    (h : handleCallArgument p scope st = .ok st') :
    st'.names = st.names ∧ st'.assignments = st.assignments ∧
    st'.breakpoints = st.breakpoints ∧ st'.calls = st.calls ∧
    st'.window = st.window := by
  unfold handleCallArgument at h
  cases hk : p.hasKey "type" with
  | error e => simp [hk] at h
  | ok b =>
    cases b
    · simp only [hk] at h; injection h with h; subst h; exact ⟨rfl, rfl, rfl, rfl, rfl⟩
    · cases ht : p.item "type" with
      | error e => simp [hk, ht] at h
      | ok t =>
        simp only [hk, ht] at h
        split at h
        · exact onLiteral_ok h
        · injection h with h; subst h; exact ⟨rfl, rfl, rfl, rfl, rfl⟩

/-- An invariant relation that holds for each loop step and is reflexive
and transitive also holds across `List.foldlM` over `Except`. -/
theorem foldlM_rel {R : ASTState → ASTState → Prop}
    (hrefl : ∀ s, R s s) (htrans : ∀ a b c, R a b → R b c → R a c)
    {f : ASTState → Val → Except PyErr ASTState}
    (hf : ∀ d s s', f s d = .ok s' → R s s') :
    ∀ {l : List Val} {st st' : ASTState}, l.foldlM f st = .ok st' → R st st' := by
  intro l
  induction l with
  | nil => intro st st' h; injection h with h; subst h; exact hrefl st
  | cons d rest ih =>
    intro st st' h
    rw [List.foldlM_cons] at h
    cases hd : f st d with
    | error e => rw [hd] at h; cases h
    | ok s1 =>
      rw [hd] at h
      exact htrans _ _ _ (hf d st s1 hd) (ih h)

/-- `handleCallExpression` can only add to the shellcode stores. -/
theorem handleCallExpression_ok {stmt scope : Val} {st st' : ASTState}
    (h : handleCallExpression stmt scope st = .ok st') :
    st'.names = st.names ∧ st'.assignments = st.assignments ∧
    st'.breakpoints = st.breakpoints ∧ st'.calls = st.calls ∧
    st'.window = st.window := by
  unfold handleCallExpression at h
  cases h1 : stmt.hasKey "expression" with
  | error e => simp [h1] at h
  | ok b1 =>
    cases b1
    · simp only [h1] at h; injection h with h; subst h; exact ⟨rfl, rfl, rfl, rfl, rfl⟩
    · cases h2 : stmt.item "expression" with
      | error e => simp [h1, h2] at h
      | ok expr =>
        cases h3 : expr.hasKey "arguments" with
        | error e => simp [h1, h2, h3] at h
        | ok b2 =>
          cases b2
          · simp only [h1, h2, h3] at h; injection h with h; subst h
            exact ⟨rfl, rfl, rfl, rfl, rfl⟩
          · cases h4 : expr.item "arguments" with
            | error e => simp [h1, h2, h3, h4] at h
            | ok args =>
              cases h5 : args.iterElems with
              | error e => simp [h1, h2, h3, h4, h5] at h
              | ok elems =>
                simp only [h1, h2, h3, h4, h5] at h
                refine foldlM_rel (R := fun s s' =>
                    s'.names = s.names ∧ s'.assignments = s.assignments ∧
                    s'.breakpoints = s.breakpoints ∧ s'.calls = s.calls ∧
                    s'.window = s.window) (fun s => ⟨rfl, rfl, rfl, rfl, rfl⟩)
                  (fun a b c hab hbc => ?_) (fun d s s' hs => handleCallArgument_ok hs) h
                exact ⟨hbc.1.trans hab.1, hbc.2.1.trans hab.2.1, hbc.2.2.1.trans hab.2.2.1,
                       hbc.2.2.2.1.trans hab.2.2.2.1, hbc.2.2.2.2.trans hab.2.2.2.2⟩

theorem WalkInv.refl (st : ASTState) : WalkInv st st :=
  ⟨Extends.self st, id, id⟩

theorem WalkInv.trans {s1 s2 s3 : ASTState} (h1 : WalkInv s1 s2) (h2 : WalkInv s2 s3) :
    WalkInv s1 s3 :=
  ⟨h1.1.comp h2.1, fun hp => h2.2.1 (h1.2.1 hp), fun hc => h2.2.2 (h1.2.2 hc)⟩

/-- Appending a new value-free record keeps the value-free records
duplicate-free. -/
theorem PlainNodup.append_plain {l : List NameRec} {r : NameRec}
    (hl : PlainNodup l) (hr : r.value = none) (hm : r ∉ l) : PlainNodup (l ++ [r]) := by
  unfold PlainNodup at *
  rw [List.filter_append]
  have hfr : List.filter (fun q => q.value = none) [r] = [r] := by
    simp [List.filter, hr]
  rw [hfr, List.nodup_append]
  refine ⟨hl, List.nodup_singleton r, ?_⟩
  intro a ha hb
  simp only [List.mem_singleton] at hb
  subst hb
  exact hm (List.mem_of_mem_filter ha)

/-- Appending a record that carries a value leaves the value-free
records unchanged. -/
theorem PlainNodup.append_full {l : List NameRec} {r : NameRec}
    (hl : PlainNodup l) (hr : r.value ≠ none) : PlainNodup (l ++ [r]) := by
  unfold PlainNodup at *
  rw [List.filter_append]
  have hfr : List.filter (fun q => q.value = none) [r] = [] := by
    simp [List.filter, hr]
  simpa [hfr] using hl

/-- Invariants across one declarator iteration; additionally
`shellcodes` and `registry` are untouched (a declarator's initializer is
never inspected for shellcode) and every newly recorded binding carries
the current scope. -/
theorem handleDeclarator_ok {decl scope : Val} {st st' : ASTState}
    (h : handleDeclarator decl scope st = .ok st') :
    WalkInv st st' ∧
    st'.shellcodes = st.shellcodes ∧ st'.registry = st.registry ∧
    (∀ r ∈ st'.names, r ∈ st.names ∨ r.scope = scope) := by
  unfold handleDeclarator at h
  cases h1 : decl.hasKey "type" with
  | error e => simp [h1] at h
  | ok b1 =>
  cases b1
  case false =>
    simp only [h1] at h; injection h with h; subst h
    exact ⟨WalkInv.refl st, rfl, rfl, fun r hr => .inl hr⟩
  case true =>
  cases h2 : decl.item "type" with
  | error e => simp [h1, h2] at h
  | ok t =>
  simp only [h1, h2] at h
  split at h
  case isTrue =>
    injection h with h; subst h
    exact ⟨WalkInv.refl st, rfl, rfl, fun r hr => .inl hr⟩
  case isFalse =>
  cases h3 : decl.item "id" with
  | error e => simp [h3] at h
  | ok idv =>
  cases h4 : idv.item "name" with
  | error e => simp [h3, h4] at h
  | ok nm =>
  simp only [h3, h4] at h
  by_cases hm : (⟨nm, scope, none⟩ : NameRec) ∈ st.names
  · simp only [if_pos hm] at h
    cases h5 : decl.hasKey "init" with
    | error e => simp [h5] at h
    | ok b5 =>
    match b5 with
    | false =>
      simp only [h5] at h; injection h with h; subst h
      exact ⟨WalkInv.refl st, rfl, rfl, fun r hr => .inl hr⟩
    | true =>
    cases h6 : set_breakpoint decl scope ASSIGN_BREAKPOINT st with
    | error e => simp [h5, h6] at h
    | ok st2 =>
    obtain ⟨e1, e2, ⟨tb, e3⟩, e4, e5, e6, e7⟩ := set_breakpoint_ok h6
    have inv2 : WalkInv st st2 := by
      refine ⟨⟨⟨[], by simp [e1]⟩, ⟨[], by simp [e2]⟩, ⟨tb, e3⟩, e4, e7⟩, ?_, ?_⟩
      · intro hp; rwa [e1]
      · intro hc a ha; rw [e1, e2] at *; exact hc a (by rwa [e2] at ha)
    cases h7 : decl.item "init" with
    | error e => simp [h5, h6, h7] at h
    | ok init =>
    cases h8 : init.hasKey "raw" with
    | error e => simp [h5, h6, h7, h8] at h
    | ok b8 =>
    match b8 with
    | false =>
      simp only [h5, h6, h7, h8] at h; injection h with h; subst h
      exact ⟨inv2, e5, e6, fun r hr => .inl (e1 ▸ hr)⟩
    | true =>
    cases h9 : init.item "raw" with
    | error e => simp [h5, h6, h7, h8, h9] at h
    | ok raw =>
    simp only [h5, h6, h7, h8, h9, if_pos hm] at h
    split at h <;> (injection h with h; subst h)
    case isTrue =>
      exact ⟨inv2, e5, e6, fun r hr => .inl (e1 ▸ hr)⟩
    case isFalse =>
      refine ⟨⟨⟨⟨[], by simp [e1]⟩, ⟨[⟨nm, scope, some raw⟩], by simp [e2]⟩,
               ⟨tb, e3⟩, e4, e7⟩, ?_, ?_⟩, e5, e6, ?_⟩
      · intro hp; simpa [e1] using hp
      · intro hc a ha
        simp only [List.mem_append, List.mem_singleton] at ha
        cases ha with
        | inl ha =>
          have h' := hc a (by rwa [e2] at ha)
          simpa [e1] using h'
        | inr ha =>
          subst ha
          right
          show NameRec.plain _ ∈ st2.names
          rw [e1]
          exact hm
      · exact fun r hr => .inl (e1 ▸ hr)
  · simp only [if_neg hm] at h
    cases h5 : decl.hasKey "init" with
    | error e => simp [h5] at h
    | ok b5 =>
    match b5 with
    | false =>
      simp only [h5] at h; injection h with h; subst h
      refine ⟨⟨⟨⟨[⟨nm, scope, none⟩], rfl⟩, ⟨[], by simp⟩, ⟨[], by simp⟩, rfl, rfl⟩,
              ?_, ?_⟩, rfl, rfl, ?_⟩
      · exact fun hp => hp.append_plain rfl hm
      · intro hc a ha
        exact (hc a ha).imp (fun h' => List.mem_append_left _ h')
          (fun h' => List.mem_append_left _ h')
      · intro r hr
        rcases List.mem_append.mp hr with h' | h'
        · exact .inl h'
        · right; rw [List.mem_singleton.mp h']
    | true =>
    cases h6 : set_breakpoint decl scope ASSIGN_BREAKPOINT
        { st with names := st.names ++ [⟨nm, scope, none⟩] } with
    | error e => simp [h5, h6] at h
    | ok st2 =>
    obtain ⟨e1, e2, ⟨tb, e3⟩, e4, e5, e6, e7⟩ := set_breakpoint_ok h6
    replace e1 : st2.names = st.names ++ [⟨nm, scope, none⟩] := e1
    replace e2 : st2.assignments = st.assignments := e2
    replace e3 : st2.breakpoints = st.breakpoints ++ tb := e3
    replace e4 : st2.calls = st.calls := e4
    replace e5 : st2.shellcodes = st.shellcodes := e5
    replace e6 : st2.registry = st.registry := e6
    replace e7 : st2.window = st.window := e7
    cases h7 : decl.item "init" with
    | error e => simp [h5, h6, h7] at h
    | ok init =>
    cases h8 : init.hasKey "raw" with
    | error e => simp [h5, h6, h7, h8] at h
    | ok b8 =>
    match b8 with
    | false =>
      simp only [h5, h6, h7, h8] at h; injection h with h; subst h
      refine ⟨⟨⟨⟨[⟨nm, scope, none⟩], e1⟩, ⟨[], by simp [e2]⟩, ⟨tb, e3⟩, e4, e7⟩,
              ?_, ?_⟩, e5, e6, ?_⟩
      · intro hp; rw [e1]; exact hp.append_plain rfl hm
      · intro hc a ha
        rw [e2] at ha
        rw [e1]
        exact (hc a ha).imp (fun h' => List.mem_append_left _ h')
          (fun h' => List.mem_append_left _ h')
      · intro r hr
        rw [e1] at hr
        rcases List.mem_append.mp hr with h' | h'
        · exact .inl h'
        · right; rw [List.mem_singleton.mp h']
    | true =>
    cases h9 : init.item "raw" with
    | error e => simp [h5, h6, h7, h8, h9] at h
    | ok raw =>
    simp only [h5, h6, h7, h8, h9, if_neg hm] at h
    split at h <;> (injection h with h; subst h)
    case isTrue =>
      refine ⟨⟨⟨⟨[⟨nm, scope, some raw⟩], rfl⟩, ⟨[], by simp [e2]⟩, ⟨tb, e3⟩, e4, e7⟩,
              ?_, ?_⟩, e5, e6, ?_⟩
      · intro hp; exact hp.append_full (by simp)
      · intro hc a ha
        rw [e2] at ha
        exact (hc a ha).imp (fun h' => List.mem_append_left _ h')
          (fun h' => List.mem_append_left _ h')
      · intro r hr
        rcases List.mem_append.mp hr with h' | h'
        · exact .inl h'
        · right; rw [List.mem_singleton.mp h']
    case isFalse =>
      refine ⟨⟨⟨⟨[⟨nm, scope, some raw⟩], rfl⟩, ⟨[⟨nm, scope, some raw⟩], by simp [e2]⟩,
               ⟨tb, e3⟩, e4, e7⟩, ?_, ?_⟩, e5, e6, ?_⟩
      · intro hp; exact hp.append_full (by simp)
      · intro hc a ha
        simp only [List.mem_append, List.mem_singleton] at ha
        cases ha with
        | inl ha =>
          have := hc a (by rwa [e2] at ha)
          exact this.imp (fun h' => List.mem_append_left _ h')
            (fun h' => List.mem_append_left _ h')
        | inr ha =>
          subst ha
          exact .inl (List.mem_append_right _ (List.mem_singleton_self _))
      · intro r hr
        rcases List.mem_append.mp hr with h' | h'
        · exact .inl h'
        · right; rw [List.mem_singleton.mp h']

/-- Invariants across a whole `VariableDeclaration` node. -/
theorem onVariableDeclaration_ok {item scope : Val} {st st' : ASTState}
    (h : onVariableDeclaration item scope st = .ok st') :
    WalkInv st st' ∧
    st'.shellcodes = st.shellcodes ∧ st'.registry = st.registry ∧
    (∀ r ∈ st'.names, r ∈ st.names ∨ r.scope = scope) := by
  unfold onVariableDeclaration at h
  cases h1 : item.hasKey "declarations" with
  | error e => simp [h1] at h
  | ok b1 =>
  match b1 with
  | false =>
    simp only [h1] at h; injection h with h; subst h
    exact ⟨WalkInv.refl st, rfl, rfl, fun r hr => .inl hr⟩
  | true =>
  cases h2 : item.item "declarations" with
  | error e => simp [h1, h2] at h
  | ok decls =>
  cases h3 : decls.iterElems with
  | error e => simp [h1, h2, h3] at h
  | ok elems =>
  simp only [h1, h2, h3] at h
  exact foldlM_rel (R := fun s s' => WalkInv s s' ∧ s'.shellcodes = s.shellcodes ∧
      s'.registry = s.registry ∧ (∀ r ∈ s'.names, r ∈ s.names ∨ r.scope = scope))
    (fun s => ⟨WalkInv.refl s, rfl, rfl, fun r hr => .inl hr⟩)
    (fun a b c hab hbc => ⟨hab.1.trans hbc.1, hbc.2.1.trans hab.2.1,
      hbc.2.2.1.trans hab.2.2.1,
      fun r hr => (hbc.2.2.2 r hr).elim (fun h' => hab.2.2.2 r h') .inr⟩)
    (fun d s s' hs => handleDeclarator_ok hs) h

/-- A step that only touches the shellcode stores (or appends
breakpoints) satisfies the walk invariant. -/
theorem WalkInv.of_frame {st st' : ASTState}
    (hn : st'.names = st.names) (ha : st'.assignments = st.assignments)
    (hb : ∃ t, st'.breakpoints = st.breakpoints ++ t)
    (hc : st'.calls = st.calls) (hw : st'.window = st.window) : WalkInv st st' := by
  refine ⟨⟨⟨[], by simp [hn]⟩, ⟨[], by simp [ha]⟩, hb, hc, hw⟩, ?_, ?_⟩
  · intro hp; rwa [hn]
  · intro hcov a haa
    rw [ha] at haa
    rw [hn]
    exact hcov a haa

/-- The guarded append of a value-free binding record satisfies the walk
invariant. -/
theorem WalkInv.insert_plain (st : ASTState) (r : NameRec) (hr : r.value = none) :
    WalkInv st (if r ∈ st.names then st else { st with names := st.names ++ [r] }) := by
  split
  · exact WalkInv.refl st
  · refine ⟨⟨⟨[r], rfl⟩, ⟨[], by simp⟩, ⟨[], by simp⟩, rfl, rfl⟩, ?_, ?_⟩
    · exact fun hp => hp.append_plain hr ‹_›
    · intro hc a ha
      exact (hc a ha).imp (List.mem_append_left _) (List.mem_append_left _)

/-- `set_breakpoint` satisfies the walk invariant. -/
theorem WalkInv.of_set_breakpoint {stmt scope : Val} {ty : Nat} {st st' : ASTState}
    (h : set_breakpoint stmt scope ty st = .ok st') : WalkInv st st' := by
  obtain ⟨e1, e2, hb, e4, _, _, e7⟩ := set_breakpoint_ok h
  exact WalkInv.of_frame e1 e2 hb e4 e7

/-- Every successful step of the recursive walk, whatever the fuel,
preserves the state invariants. -/
theorem run_ok_inv {fuel : Nat} {c : Call} {scope : Val} {st st' : ASTState}
    (h : run fuel c scope st = .ok st') : WalkInv st st' := by
  induction fuel generalizing c scope st st' with
  | zero => simp [run] at h
  | succ fuel ih =>
    cases c with
    | walk body =>
      cases body with
      | str s =>
        simp only [run] at h
        split at h
        · injection h with h; subst h; exact WalkInv.refl st
        · cases h
      | dict fs =>
        cases fs with
        | nil => simp only [run] at h; injection h with h; subst h; exact WalkInv.refl st
        | cons p rest => simp [run] at h
      | list stmts => simp only [run] at h; exact ih h
      | num n => simp [run] at h
      | bool b => simp [run] at h
      | null => simp [run] at h
    | walkList l =>
      cases l with
      | nil => simp only [run] at h; injection h with h; subst h; exact WalkInv.refl st
      | cons item rest =>
        simp only [run] at h
        cases hx : run fuel (.walkItem item) scope st with
        | error e => simp [hx] at h
        | ok s1 =>
          simp only [hx] at h
          exact (ih hx).trans (ih h)
    | walkItem item =>
      simp only [run] at h
      cases ht : item.item "type" with
      | error e => simp [ht] at h
      | ok t =>
      simp only [ht] at h
      split at h
      · exact ih h
      split at h
      · exact (onVariableDeclaration_ok h).1
      split at h
      · exact ih h
      split at h
      · exact ih h
      split at h
      · exact WalkInv.of_set_breakpoint h
      split at h
      · exact WalkInv.of_set_breakpoint h
      split at h
      · exact WalkInv.of_set_breakpoint h
      split at h
      · exact WalkInv.of_set_breakpoint h
      split at h
      · obtain ⟨e1, e2, e3, e4, e7⟩ := onLiteral_ok h
        exact WalkInv.of_frame e1 e2 ⟨[], by simp [e3]⟩ e4 e7
      split at h
      · obtain ⟨e1, e2, e3, e4, e7⟩ := onReturnStatement_ok h
        exact WalkInv.of_frame e1 e2 ⟨[], by simp [e3]⟩ e4 e7
      injection h with h; subst h; exact WalkInv.refl st
    | onExpressionStatement stmt =>
      simp only [run] at h
      cases h1 : stmt.hasKey "expression" with
      | error e => simp [h1] at h
      | ok b1 =>
      match b1 with
      | false => simp only [h1] at h; injection h with h; subst h; exact WalkInv.refl st
      | true =>
      cases h2 : stmt.item "expression" with
      | error e => simp [h1, h2] at h
      | ok expr =>
      cases h3 : expr.hasKey "type" with
      | error e => simp [h1, h2, h3] at h
      | ok b3 =>
      match b3 with
      | false => simp only [h1, h2, h3] at h; injection h with h; subst h
                 exact WalkInv.refl st
      | true =>
      cases h4 : expr.item "type" with
      | error e => simp [h1, h2, h3, h4] at h
      | ok t =>
      simp only [h1, h2, h3, h4] at h
      split at h
      · exact ih h
      split at h
      · obtain ⟨e1, e2, e3, e4, e7⟩ := handleCallExpression_ok h
        exact WalkInv.of_frame e1 e2 ⟨[], by simp [e3]⟩ e4 e7
      injection h with h; subst h; exact WalkInv.refl st
    | handleAssignmentExpression stmt =>
      simp only [run] at h
      cases h1 : stmt.hasKey "expression" with
      | error e => simp [h1] at h
      | ok b1 =>
      match b1 with
      | false => simp only [h1] at h; injection h with h; subst h; exact WalkInv.refl st
      | true =>
      cases h2 : stmt.item "expression" with
      | error e => simp [h1, h2] at h
      | ok expr =>
      cases h3 : expr.hasKey "operator" with
      | error e => simp [h1, h2, h3] at h
      | ok b3 =>
      match b3 with
      | false => simp only [h1, h2, h3] at h; injection h with h; subst h
                 exact WalkInv.refl st
      | true =>
      cases h4 : expr.item "operator" with
      | error e => simp [h1, h2, h3, h4] at h
      | ok op =>
      simp only [h1, h2, h3, h4] at h
      split at h
      case isTrue => injection h with h; subst h; exact WalkInv.refl st
      case isFalse =>
      cases h5 : expr.item "left" with
      | error e => simp [h5] at h
      | ok left =>
      cases h6 : left.hasKey "name" with
      | error e => simp [h5, h6] at h
      | ok hasName =>
      simp only [h5, h6] at h
      match hasName with
      | true =>
        cases h7 : left.item "name" with
        | error e => simp [h7] at h
        | ok nm =>
        simp only [h7] at h
        cases h8 : run fuel (.walkItem left) scope
            (if (⟨nm, scope, none⟩ : NameRec) ∈ st.names then st
             else { st with names := st.names ++ [⟨nm, scope, none⟩] }) with
        | error e => simp [h8] at h
        | ok s2 =>
        simp only [h8] at h
        cases h9 : expr.item "right" with
        | error e => simp [h9] at h
        | ok right =>
        simp only [h9] at h
        cases h10 : run fuel (.walkItem right) scope s2 with
        | error e => simp [h10] at h
        | ok s3 =>
        simp only [h10] at h
        exact (((WalkInv.insert_plain st ⟨nm, scope, none⟩ rfl).trans (ih h8)).trans
          (ih h10)).trans (WalkInv.of_set_breakpoint h)
      | false =>
        cases h8 : run fuel (.walkItem left) scope st with
        | error e => simp [h8] at h
        | ok s2 =>
        simp only [h8] at h
        cases h9 : expr.item "right" with
        | error e => simp [h9] at h
        | ok right =>
        simp only [h9] at h
        cases h10 : run fuel (.walkItem right) scope s2 with
        | error e => simp [h10] at h
        | ok s3 =>
        simp only [h10] at h
        exact ((ih h8).trans (ih h10)).trans (WalkInv.of_set_breakpoint h)
    | onFunctionDeclaration decl =>
      simp only [run] at h
      cases h1 : decl.hasKey "id" with
      | error e => simp [h1] at h
      | ok b1 =>
      match b1 with
      | false => simp only [h1] at h; injection h with h; subst h; exact WalkInv.refl st
      | true =>
      cases h2 : decl.item "id" with
      | error e => simp [h1, h2] at h
      | ok idv =>
      cases h3 : idv.hasKey "name" with
      | error e => simp [h1, h2, h3] at h
      | ok b3 =>
      match b3 with
      | false => simp only [h1, h2, h3] at h; injection h with h; subst h
                 exact WalkInv.refl st
      | true =>
      cases h4 : idv.item "name" with
      | error e => simp [h1, h2, h3, h4] at h
      | ok funcName =>
      cases h5 : decl.hasKey "body" with
      | error e => simp [h1, h2, h3, h4, h5] at h
      | ok b5 =>
      match b5 with
      | false => simp only [h1, h2, h3, h4, h5] at h; injection h with h; subst h
                 exact WalkInv.refl st
      | true =>
      cases h6 : decl.item "body" with
      | error e => simp [h1, h2, h3, h4, h5, h6] at h
      | ok b =>
      cases h7 : b.hasKey "body" with
      | error e => simp [h1, h2, h3, h4, h5, h6, h7] at h
      | ok b7 =>
      match b7 with
      | false => simp only [h1, h2, h3, h4, h5, h6, h7] at h; injection h with h; subst h
                 exact WalkInv.refl st
      | true =>
      cases h8 : b.item "body" with
      | error e => simp [h1, h2, h3, h4, h5, h6, h7, h8] at h
      | ok bl =>
      simp only [h1, h2, h3, h4, h5, h6, h7, h8] at h
      exact ih h
    | onIfStatement stmt =>
      simp only [run] at h
      cases h1 : run fuel (.onIfBranch stmt "alternate") scope st with
      | error e => simp [h1] at h
      | ok s1 =>
      simp only [h1] at h
      exact (ih h1).trans (ih h)
    | onIfBranch stmt key =>
      simp only [run] at h
      cases h1 : stmt.hasKey key with
      | error e => simp [h1] at h
      | ok b1 =>
      match b1 with
      | false => simp only [h1] at h; injection h with h; subst h; exact WalkInv.refl st
      | true =>
      cases h2 : stmt.item key with
      | error e => simp [h1, h2] at h
      | ok node =>
      cases h3 : node.getDefault "body" with
      | error e => simp [h1, h2, h3] at h
      | ok body =>
      simp only [h1, h2, h3] at h
      split at h
      · exact ih h
      · injection h with h; subst h; exact WalkInv.refl st

theorem setAdd_self {α : Type} [DecidableEq α] (x : α) (xs : List α) :
    x ∈ setAdd x xs := by
  unfold setAdd
  split
  · assumption
  · exact List.mem_append_right _ (List.mem_singleton_self x)

theorem setAdd_mem_iff {α : Type} [DecidableEq α] (x y : α) (xs : List α) :
    y ∈ setAdd x xs ↔ y ∈ xs ∨ y = x := by
  unfold setAdd
  split
  · constructor
    · exact .inl
    · rintro (hy | rfl) <;> assumption
  · simp [List.mem_append]

/-! The claims. -/

/-- C8: if turning the source into a syntax tree fails, the analysis is
abandoned: the constructor returns normally (no exception reaches the
caller) and the binding, value-assignment, breakpoint and shellcode
collections of the result are all empty. -/
theorem C8_parse_failure_empty (w : Val) (reg : Option (List (List Nat))) :
    AST.new (.error ()) w reg = .ok ⟨[], [], [], [], [], reg, w⟩ := rfl

/-- C5 counterexample: for a `for` loop whose header is on line 5 and
whose body closes on line 7, the single LoopPoint breakpoint is recorded
at line 7 — the statement's end line — not at the header line 5, so the
claim's "at the loop's own header line" is false. -/
theorem C5_counterexample :
    (AST.new (.ok (mkProgram [mkLoop "ForStatement"
        [mkAssign "+=" (mkIdent "s") (mkLiteral (.str "a") "\"a\"" 6) 6] 5 7]))
        Val.null none).map (fun st => st.breakpoints) =
      .ok [⟨LOOP_BREAKPOINT, Val.num 7, Val.null⟩] ∧
    (mkLoc 5 7).item "start" = .ok (.dict [("line", .num 5)]) ∧
    Val.num 7 ≠ Val.num 5 :=
  ⟨rfl, rfl, by decide⟩

/-- C5 amended: every loop handler (`for`, `while`, `do-while`,
`for-in`) records exactly the one LoopPoint breakpoint
`(LOOP_BREAKPOINT, loc.end.line, scope)` — deduplicated — and nothing
else; its result depends only on the statement's `loc`, so the loop body
is neither consulted nor traversed; and the dispatcher routes each
loop-typed statement to exactly that handler. -/
theorem C5_loop_breakpoint {stmt scope : Val} {st : ASTState} {loc en line : Val}
    (h1 : stmt.item "loc" = .ok loc) (h2 : loc.item "end" = .ok en)
    (h3 : en.item "line" = .ok line) :
    (onForStatement stmt scope st = .ok
        (if (⟨LOOP_BREAKPOINT, line, scope⟩ : BreakpointRec) ∈ st.breakpoints then st
         else { st with breakpoints := st.breakpoints ++ [⟨LOOP_BREAKPOINT, line, scope⟩] })) ∧
    (onWhileStatement stmt scope st = onForStatement stmt scope st) ∧
    (onDoWhileStatement stmt scope st = onForStatement stmt scope st) ∧
    (onForInStatement stmt scope st = onForStatement stmt scope st) ∧
    (∀ s, s.item "loc" = .ok loc → onForStatement s scope st = onForStatement stmt scope st) ∧
    (∀ fuel, stmt.item "type" = .ok (.str "ForStatement") →
        run (fuel + 1) (.walkItem stmt) scope st = onForStatement stmt scope st) ∧
    (∀ fuel, stmt.item "type" = .ok (.str "WhileStatement") →
        run (fuel + 1) (.walkItem stmt) scope st = onWhileStatement stmt scope st) ∧
    (∀ fuel, stmt.item "type" = .ok (.str "DoWhileStatement") →
        run (fuel + 1) (.walkItem stmt) scope st = onDoWhileStatement stmt scope st) ∧
    (∀ fuel, stmt.item "type" = .ok (.str "ForInStatement") →
        run (fuel + 1) (.walkItem stmt) scope st = onForInStatement stmt scope st) := by
  refine ⟨?_, rfl, rfl, rfl, ?_, ?_, ?_, ?_, ?_⟩
  · simp only [onForStatement, set_breakpoint, h1, h2, h3]
  · intro s h1'
    simp only [onForStatement, set_breakpoint, h1', h1]
  · intro fuel ht; simp [run, ht]
  · intro fuel ht; simp [run, ht]
  · intro fuel ht; simp [run, ht]
  · intro fuel ht; simp [run, ht]

/-- Witness for C5: a concrete loop node spanning lines 1–3 produces the
single LoopPoint breakpoint at line 3. -/
theorem C5_loop_breakpoint_witness :
    onForStatement (mkLoop "ForStatement" [] 1 3) Val.null
        ⟨[], [], [], [], [], none, Val.null⟩ =
      .ok ⟨[], [], [⟨LOOP_BREAKPOINT, Val.num 3, Val.null⟩], [], [], none, Val.null⟩ := by
  have h := (@C5_loop_breakpoint (mkLoop "ForStatement" [] 1 3) Val.null
    ⟨[], [], [], [], [], none, Val.null⟩ (mkLoc 1 3)
    (.dict [("line", .num 3)]) (.num 3) rfl rfl rfl).1
  simpa using h

/-- C6 counterexample: a `VariableDeclarator` without an `id` makes the
analysis constructor raise KeyError (the walk sits outside the `try`),
so "no handler ever raises on an unexpectedly shaped node" is false. -/
theorem C6_counterexample :
    AST.new (.ok (mkProgram
      [Val.dict [("type", .str "VariableDeclaration"),
                 ("declarations", .list [Val.dict [("type", .str "VariableDeclarator")]]),
                 ("loc", mkLoc 1 1)]]))
      Val.null none = .error .keyError := rfl

/-- C6 amended: handlers guard many fields and skip the node without
effect when one is absent (an expression statement without `expression`,
an assignment without `operator`, a declaration without `declarations`,
a function without `id`), but two accesses are unguarded: a
`VariableDeclarator` with no `id`, and a recognized assignment whose
expression has no `left`, raise KeyError, which propagates. -/
theorem C6_shape_mismatch :
    (∀ fuel (stmt scope : Val) (st : ASTState), stmt.hasKey "expression" = .ok false →
        run (fuel + 1) (.onExpressionStatement stmt) scope st = .ok st) ∧
    (∀ fuel (stmt scope : Val) (st : ASTState) (expr : Val),
        stmt.item "expression" = .ok expr → expr.hasKey "operator" = .ok false →
        run (fuel + 1) (.handleAssignmentExpression stmt) scope st = .ok st) ∧
    (∀ (item scope : Val) (st : ASTState), item.hasKey "declarations" = .ok false →
        onVariableDeclaration item scope st = .ok st) ∧
    (∀ fuel (decl scope : Val) (st : ASTState), decl.hasKey "id" = .ok false →
        run (fuel + 1) (.onFunctionDeclaration decl) scope st = .ok st) ∧
    (∀ (fs : List (String × Val)) (scope : Val) (st : ASTState),
        lookupField fs "type" = some (.str "VariableDeclarator") →
        lookupField fs "id" = none →
        handleDeclarator (.dict fs) scope st = .error .keyError) ∧
    (∀ fuel (gs : List (String × Val)) (stmt scope : Val) (st : ASTState),
        stmt.item "expression" = .ok (.dict gs) →
        lookupField gs "operator" = some (.str "=") →
        lookupField gs "left" = none →
        run (fuel + 1) (.handleAssignmentExpression stmt) scope st = .error .keyError) := by
  refine ⟨?_, ?_, ?_, ?_, ?_, ?_⟩
  · intro fuel stmt scope st h
    simp [run, h]
  · intro fuel stmt scope st expr h1 h2
    simp [run, hasKey_of_item h1, h1, h2]
  · intro item scope st h
    simp [onVariableDeclaration, h]
  · intro fuel decl scope st h
    simp [run, h]
  · intro fs scope st h1 h2
    simp [handleDeclarator, Val.hasKey, Val.item, lookupField_any h1, h1, h2]
  · intro fuel gs stmt scope st h1 h2 h3
    have hkOp : (Val.dict gs).hasKey "operator" = .ok true := by
      simp [Val.hasKey, lookupField_any h2]
    have hiOp : (Val.dict gs).item "operator" = .ok (.str "=") := by
      simp [Val.item, h2]
    have hiLeft : (Val.dict gs).item "left" = .error .keyError := by
      simp [Val.item, h3]
    simp [run, hasKey_of_item h1, h1, hkOp, hiOp, hiLeft, ASSIGN_OPERATORS]

/-- Witness for C6: concrete instances of the skip and raise behavior. -/
theorem C6_shape_mismatch_witness :
    onVariableDeclaration (.dict [("type", .str "VariableDeclaration")]) Val.null
        ⟨[], [], [], [], [], none, Val.null⟩ =
      .ok ⟨[], [], [], [], [], none, Val.null⟩ ∧
    handleDeclarator (.dict [("type", .str "VariableDeclarator")]) Val.null
        ⟨[], [], [], [], [], none, Val.null⟩ = .error .keyError :=
  ⟨C6_shape_mismatch.2.2.1 _ Val.null _ rfl,
   C6_shape_mismatch.2.2.2.2.1 _ Val.null _ rfl rfl⟩

/-- C2 counterexample: with the registry present and a transcodable
32-character candidate, forwarding succeeds and the value is recorded
only in the registry — the local shellcode set stays empty, refuting
"always added to the local set". -/
theorem C2_counterexample :
    (AST.new (.ok (mkProgram [mkCallStmt (mkIdent "eval")
        [mkLiteral (.str "AAAAAAAAAAAAAAAAAAAAAAAAAAAAAAAA") "\"A\"" 1] 1]))
      Val.null (some [])).map (fun st => st.shellcodes) = .ok [] ∧
    (AST.new (.ok (mkProgram [mkCallStmt (mkIdent "eval")
        [mkLiteral (.str "AAAAAAAAAAAAAAAAAAAAAAAAAAAAAAAA") "\"A\"" 1] 1]))
      Val.null (some [])).map (fun st => st.registry) =
      .ok (some [List.replicate 32 65]) ∧
    32 ≤ "AAAAAAAAAAAAAAAAAAAAAAAAAAAAAAAA".length :=
  ⟨rfl, rfl, by decide⟩

/-- C2 amended: a qualifying candidate reaches the local set exactly
when forwarding fails — the registry is absent, or latin-1 transcoding
fails; when forwarding succeeds, only the registry records it (in
transcoded form).  On transcoding failure the original textual form
lands in the local set, so the candidate is never dropped. -/
theorem C2_shellcode_forwarding (s : String) (st : ASTState) (h : 32 ≤ s.length) :
    (st.registry = none →
      add_shellcode (.str s) st = { st with shellcodes := setAdd (.str s) st.shellcodes }) ∧
    (∀ reg, st.registry = some reg → encodeLatin1 s = none →
      add_shellcode (.str s) st = { st with shellcodes := setAdd (.str s) st.shellcodes }) ∧
    (∀ reg bs, st.registry = some reg → encodeLatin1 s = some bs →
      add_shellcode (.str s) st = { st with registry := some (setAdd bs reg) }) ∧
    Val.str s ∈ setAdd (Val.str s) st.shellcodes := by
  have hlen : ¬s.length < 32 := not_lt.mpr h
  refine ⟨?_, ?_, ?_, setAdd_self _ _⟩
  · intro hr; simp [add_shellcode, hlen, hr]
  · intro reg hr he; simp [add_shellcode, hlen, hr, he]
  · intro reg bs hr he; simp [add_shellcode, hlen, hr, he]

/-- Witness for C2: a 32-character value with no registry goes to the
local set. -/
theorem C2_shellcode_forwarding_witness :
    add_shellcode (.str "AAAAAAAAAAAAAAAAAAAAAAAAAAAAAAAA")
        ⟨[], [], [], [], [], none, Val.null⟩ =
      ⟨[], [], [], [], [.str "AAAAAAAAAAAAAAAAAAAAAAAAAAAAAAAA"], none, Val.null⟩ := by
  have h := (C2_shellcode_forwarding "AAAAAAAAAAAAAAAAAAAAAAAAAAAAAAAA"
    ⟨[], [], [], [], [], none, Val.null⟩ (by decide)).1 rfl
  simpa [setAdd] using h

/-- C1 counterexample: a top-level `var x;` is recorded with scope
`None` (Python `None`, here `Val.null`), not the string `"global"`. -/
theorem C1_counterexample :
    (AST.new (.ok (mkProgram [mkVarDecl [mkDeclarator "x" none 1] 1])) Val.null none).map
        (fun st => st.names.map (fun r => r.scope)) = .ok [Val.null] ∧
    Val.null ≠ Val.str "global" :=
  ⟨rfl, by decide⟩

/-- C1 amended: the outermost statement list is walked with scope
`None`, not `"global"`; a function declaration ignores the caller's
scope and walks its body with scope = the function's own name; and every
binding recorded by a variable declaration carries the scope under which
the declaration was walked. -/
theorem C1_scope_labels :
    (∀ (ast body w : Val) (reg : Option (List (List Nat))), ast.item "body" = .ok body →
      AST.new (.ok ast) w reg =
        run (FUEL ast) (.walk body) Val.null ⟨[], [], [], [], [], reg, w⟩) ∧
    (∀ fuel (decl s1 s2 : Val) (st : ASTState),
      run (fuel + 1) (.onFunctionDeclaration decl) s1 st =
        run (fuel + 1) (.onFunctionDeclaration decl) s2 st) ∧
    (∀ fuel (decl sc idv funcName b bl : Val) (st : ASTState),
      decl.item "id" = .ok idv → idv.item "name" = .ok funcName →
      decl.item "body" = .ok b → b.item "body" = .ok bl →
      run (fuel + 1) (.onFunctionDeclaration decl) sc st = run fuel (.walk bl) funcName st) ∧
    (∀ (item scope : Val) (st st' : ASTState), onVariableDeclaration item scope st = .ok st' →
      ∀ r ∈ st'.names, r ∈ st.names ∨ r.scope = scope) := by
  refine ⟨?_, ?_, ?_, ?_⟩
  · intro ast body w reg h
    simp only [AST.new, h]
  · intro fuel decl s1 s2 st
    rfl
  · intro fuel decl sc idv funcName b bl st h1 h2 h3 h4
    simp only [run, hasKey_of_item h1, h1, hasKey_of_item h2, h2,
      hasKey_of_item h3, h3, hasKey_of_item h4, h4]
  · exact fun item scope st st' h => (onVariableDeclaration_ok h).2.2.2

/-- Witness for C1: a concrete function declaration's body is walked
under the function's own name, regardless of the caller's scope. -/
theorem C1_scope_labels_witness :
    run (9 + 1) (.onFunctionDeclaration
        (mkFunctionDecl "f" [mkVarDecl [mkDeclarator "y" none 2] 2] 1 3))
        Val.null ⟨[], [], [], [], [], none, Val.null⟩ =
      run 9 (.walk (.list [mkVarDecl [mkDeclarator "y" none 2] 2])) (.str "f")
        ⟨[], [], [], [], [], none, Val.null⟩ :=
  C1_scope_labels.2.2.1 9 _ Val.null _ _ _ _ _ rfl rfl rfl rfl

/-- C3 counterexample: after `var x = 1;` the binding record is mutated
in place to carry the raw text, so the later `x = 2;` appends a second
binding for the same `(name, scope)` pair — the bindings sequence holds
two entries for `(x, None)`. -/
theorem C3_counterexample :
    (AST.new (.ok (mkProgram
      [mkVarDecl [mkDeclarator "x" (some (mkLiteral (.num 1) "1" 1)) 1] 1,
       mkAssign "=" (mkIdent "x") (mkLiteral (.num 2) "2" 2) 2]))
      Val.null none).map (fun st => st.names.map (fun r => (r.name, r.scope))) =
      .ok [(Val.str "x", Val.null), (Val.str "x", Val.null)] := rfl

/-- C3 amended: bindings are deduplicated by full record equality at the
moment of insertion and the sequence only ever grows by appending (first
occurrence wins among equal records, insertion order preserved), so the
value-free records are unique per `(name, scope)`; but a record mutated
in place to carry the raw initializer text no longer equals the plain
pair, so the same `(name, scope)` can be appended again later. -/
theorem C3_bindings_dedup :
    (∀ fuel (c : Call) (scope : Val) (st st' : ASTState), run fuel c scope st = .ok st' →
      ∃ t, st'.names = st.names ++ t) ∧
    (∀ (parse : Except Unit Val) (w : Val) (reg : Option (List (List Nat)))
        (st' : ASTState), AST.new parse w reg = .ok st' → PlainNodup st'.names) := by
  constructor
  · exact fun fuel c scope st st' h => (run_ok_inv h).1.1
  · intro parse w reg st' h
    cases parse with
    | error e =>
      injection h with h
      subst h
      simp [PlainNodup]
    | ok ast =>
      simp only [AST.new] at h
      cases hb : ast.item "body" with
      | error e => rw [hb] at h; cases h
      | ok body =>
        rw [hb] at h
        have hnil : PlainNodup ([] : List NameRec) := by simp [PlainNodup]
        exact (run_ok_inv h).2.1 hnil

/-- Witness for C3: the final bindings of the counterexample script
still have duplicate-free value-free records. -/
theorem C3_bindings_dedup_witness :
    PlainNodup [⟨Val.str "x", Val.null, some (Val.str "1")⟩, ⟨Val.str "x", Val.null, none⟩] :=
  C3_bindings_dedup.2 (.ok (mkProgram
      [mkVarDecl [mkDeclarator "x" (some (mkLiteral (.num 1) "1" 1)) 1] 1,
       mkAssign "=" (mkIdent "x") (mkLiteral (.num 2) "2" 2) 2]))
    Val.null none _ rfl

/-- C4 counterexample: a declarator whose initializer is a 40-character
string literal produces no shellcode candidate — declarator initializers
are never inspected by the shellcode extractor. -/
theorem C4_counterexample :
    (AST.new (.ok (mkProgram [mkVarDecl [mkDeclarator "a"
        (some (mkLiteral (.str "abcdabcdabcdabcdabcdabcdabcdabcdabcdabcd")
          "'abcdabcdabcdabcdabcdabcdabcdabcdabcdabcd'" 1)) 1] 1]))
      Val.null none).map (fun st => st.shellcodes) = .ok [] ∧
    32 ≤ "abcdabcdabcdabcdabcdabcdabcdabcdabcdabcd".length :=
  ⟨rfl, by decide⟩

/-- C4 amended: with no registry, a value enters the local shellcode set
iff it is textual of length at least 32 (so a 31-character string is
never recorded and a 32-character one always is); literal values reached
from a call argument or a return argument are fed to `add_shellcode`;
but a declarator's initializer is never inspected — `onVariableDeclaration`
leaves the shellcode stores untouched. -/
theorem C4_shellcode_threshold :
    (∀ (v : Val) (st : ASTState), st.registry = none →
      (v ∈ (add_shellcode v st).shellcodes ↔
        v ∈ st.shellcodes ∨ ∃ s, v = Val.str s ∧ 32 ≤ s.length)) ∧
    (∀ (item scope : Val) (st st' : ASTState), onVariableDeclaration item scope st = .ok st' →
      st'.shellcodes = st.shellcodes ∧ st'.registry = st.registry) ∧
    (∀ (stmt scope arg value : Val) (st : ASTState), stmt.truthy = true →
      stmt.hasKey "argument" = .ok true → stmt.item "argument" = .ok arg →
      arg.getDefault "value" = .ok value → value.truthy = true →
      onReturnStatement stmt scope st = .ok (add_shellcode value st)) ∧
    (∀ (p scope value : Val) (st : ASTState), p.item "type" = .ok (.str "Literal") →
      p.truthy = true → p.getDefault "value" = .ok value → value.truthy = true →
      handleCallArgument p scope st = .ok (add_shellcode value st)) := by
  refine ⟨?_, ?_, ?_, ?_⟩
  · intro v st hr
    cases v with
    | str s =>
      by_cases hl : s.length < 32
      · simp only [add_shellcode, if_pos hl]
        constructor
        · exact .inl
        · rintro (hm | ⟨s', hs', hlen⟩)
          · exact hm
          · injection hs' with hs'
            subst hs'
            omega
      · simp only [add_shellcode, if_neg hl, hr]
        rw [setAdd_mem_iff]
        constructor
        · rintro (hm | -)
          · exact .inl hm
          · exact .inr ⟨s, rfl, by omega⟩
        · rintro (hm | -)
          · exact .inl hm
          · exact .inr rfl
    | num n => simp [add_shellcode]
    | bool b => simp [add_shellcode]
    | null => simp [add_shellcode]
    | dict fs => simp [add_shellcode]
    | list xs => simp [add_shellcode]
  · intro item scope st st' h
    exact ⟨(onVariableDeclaration_ok h).2.1, (onVariableDeclaration_ok h).2.2.1⟩
  · intro stmt scope arg value st h0 h1 h2 h3 h4
    simp [onReturnStatement, h0, h1, h2, h3, h4]
  · intro p scope value st h1 h2 h3 h4
    simp [handleCallArgument, hasKey_of_item h1, h1, onLiteral, h2, h3, h4]

/-- Witness for C4: a 32-character string enters the (empty) local set;
membership holds by the threshold characterization. -/
theorem C4_shellcode_threshold_witness :
    Val.str "AAAAAAAAAAAAAAAAAAAAAAAAAAAAAAAA" ∈
      (add_shellcode (.str "AAAAAAAAAAAAAAAAAAAAAAAAAAAAAAAA")
        ⟨[], [], [], [], [], none, Val.null⟩).shellcodes :=
  (C4_shellcode_threshold.1 _ ⟨[], [], [], [], [], none, Val.null⟩ rfl).mpr
    (.inr ⟨_, rfl, by decide⟩)

/-- C10 counterexample: after `var x;` the pair is already bound, so the
raw-text record created by the second declaration `var x = 1;` is
appended to the value-assignments only — it is not an element of the
bindings sequence. -/
theorem C10_counterexample :
    (AST.new (.ok (mkProgram
      [mkVarDecl [mkDeclarator "x" none 1] 1,
       mkVarDecl [mkDeclarator "x" (some (mkLiteral (.num 1) "1" 2)) 2] 2]))
      Val.null none).map (fun st => st.assignments) =
      .ok [⟨Val.str "x", Val.null, some (Val.str "1")⟩] ∧
    (AST.new (.ok (mkProgram
      [mkVarDecl [mkDeclarator "x" none 1] 1,
       mkVarDecl [mkDeclarator "x" (some (Thug.mkLiteral (.num 1) "1" 2)) 2] 2]))
      Val.null none).map (fun st => st.names) =
      .ok [⟨Val.str "x", Val.null, none⟩] ∧
    (⟨Val.str "x", Val.null, some (Val.str "1")⟩ : NameRec) ∉
      [(⟨Val.str "x", Val.null, none⟩ : NameRec)] :=
  ⟨rfl, rfl, by decide⟩

/-- C10 amended: every record in the value-assignments sequence has its
`(name, scope)` represented in the bindings sequence — either as the
same raw-text-carrying record (when the declarator's binding was newly
appended and then mutated in place) or as the earlier value-free
`(name, scope)` binding; the raw-text record itself need not be a
binding. -/
theorem C10_assignments_covered (parse : Except Unit Val) (w : Val)
    (reg : Option (List (List Nat))) (st' : ASTState)
    (h : AST.new parse w reg = .ok st') :
    ∀ a ∈ st'.assignments, a ∈ st'.names ∨ a.plain ∈ st'.names := by
  cases parse with
  | error e =>
    injection h with h
    subst h
    intro a ha
    simp at ha
  | ok ast =>
    simp only [AST.new] at h
    cases hb : ast.item "body" with
    | error e => rw [hb] at h; cases h
    | ok body =>
      rw [hb] at h
      have hnil : AssignCovered ⟨[], [], [], [], [], reg, w⟩ := by
        intro a ha; simp at ha
      exact (run_ok_inv h).2.2 hnil

/-- Witness for C10: in the counterexample's final state the raw-text
assignment record is covered by the value-free binding. -/
theorem C10_assignments_covered_witness :
    (⟨Val.str "x", Val.null, some (Val.str "1")⟩ : NameRec) ∈
        ([⟨Val.str "x", Val.null, none⟩] : List NameRec) ∨
      NameRec.plain ⟨Val.str "x", Val.null, some (Val.str "1")⟩ ∈
        ([⟨Val.str "x", Val.null, none⟩] : List NameRec) :=
  C10_assignments_covered (.ok (mkProgram
      [mkVarDecl [mkDeclarator "x" none 1] 1,
       mkVarDecl [mkDeclarator "x" (some (mkLiteral (.num 1) "1" 2)) 2] 2]))
    Val.null none _ rfl _ (by decide)

/-- The breakpoint recorded by a successful `set_breakpoint` is in the
resulting set. -/
theorem set_breakpoint_mem {stmt scope : Val} {ty : Nat} {st st' : ASTState}
    {loc en line : Val}
    (h1 : stmt.item "loc" = .ok loc) (h2 : loc.item "end" = .ok en)
    (h3 : en.item "line" = .ok line)
    (h : set_breakpoint stmt scope ty st = .ok st') :
    (⟨ty, line, scope⟩ : BreakpointRec) ∈ st'.breakpoints := by
  simp only [set_breakpoint, h1, h2, h3] at h
  split at h <;> (injection h with h; subst h)
  · assumption
  · exact List.mem_append_right _ (List.mem_singleton_self _)

/-- C7: an expression statement whose expression's operator is not a
recognized assignment operator is ignored entirely (the handler returns
the state unchanged — no binding, no breakpoint); for a recognized
operator, a bare-identifier left-hand side records a binding under the
current scope, both sub-expressions are re-dispatched under the current
scope, and the AssignmentPoint breakpoint is recorded unconditionally —
also when the left-hand side has no `name`. -/
theorem C7_operator_filter :
    (∀ fuel (stmt scope expr op : Val) (st : ASTState),
      stmt.item "expression" = .ok expr → expr.item "operator" = .ok op →
      op ∉ ASSIGN_OPERATORS →
      run (fuel + 1) (.handleAssignmentExpression stmt) scope st = .ok st) ∧
    (∀ fuel (stmt scope expr op left nm right : Val) (st st2 st3 : ASTState),
      stmt.item "expression" = .ok expr → expr.item "operator" = .ok op →
      op ∈ ASSIGN_OPERATORS → expr.item "left" = .ok left →
      left.item "name" = .ok nm →
      run fuel (.walkItem left) scope
          (if (⟨nm, scope, none⟩ : NameRec) ∈ st.names then st
           else { st with names := st.names ++ [⟨nm, scope, none⟩] }) = .ok st2 →
      expr.item "right" = .ok right →
      run fuel (.walkItem right) scope st2 = .ok st3 →
      run (fuel + 1) (.handleAssignmentExpression stmt) scope st =
        set_breakpoint stmt scope ASSIGN_BREAKPOINT st3) ∧
    (∀ fuel (stmt scope expr op left right : Val) (st st2 st3 : ASTState),
      stmt.item "expression" = .ok expr → expr.item "operator" = .ok op →
      op ∈ ASSIGN_OPERATORS → expr.item "left" = .ok left →
      left.hasKey "name" = .ok false →
      run fuel (.walkItem left) scope st = .ok st2 →
      expr.item "right" = .ok right →
      run fuel (.walkItem right) scope st2 = .ok st3 →
      run (fuel + 1) (.handleAssignmentExpression stmt) scope st =
        set_breakpoint stmt scope ASSIGN_BREAKPOINT st3) ∧
    (∀ fuel (stmt scope expr op left nm loc en line : Val) (st st' : ASTState),
      stmt.item "expression" = .ok expr → expr.item "operator" = .ok op →
      op ∈ ASSIGN_OPERATORS → expr.item "left" = .ok left →
      left.item "name" = .ok nm →
      stmt.item "loc" = .ok loc → loc.item "end" = .ok en → en.item "line" = .ok line →
      run (fuel + 1) (.handleAssignmentExpression stmt) scope st = .ok st' →
      (⟨nm, scope, none⟩ : NameRec) ∈ st'.names ∧
      (⟨ASSIGN_BREAKPOINT, line, scope⟩ : BreakpointRec) ∈ st'.breakpoints) := by
  refine ⟨?_, ?_, ?_, ?_⟩
  · intro fuel stmt scope expr op st h1 h2 h3
    simp only [run, hasKey_of_item h1, h1, hasKey_of_item h2, h2, if_pos h3]
  · intro fuel stmt scope expr op left nm right st st2 st3 h1 h2 h3 h4 h5 hw1 hr hw2
    simp only [run, hasKey_of_item h1, h1, hasKey_of_item h2, h2, h3, not_true,
      if_false, h4, hasKey_of_item h5, h5, hw1, hr, hw2]
  · intro fuel stmt scope expr op left right st st2 st3 h1 h2 h3 h4 h5 hw1 hr hw2
    simp only [run, hasKey_of_item h1, h1, hasKey_of_item h2, h2, h3, not_true,
      if_false, h4, h5, hw1, hr, hw2]
  · intro fuel stmt scope expr op left nm loc en line st st' h1 h2 h3 h4 h5 h6 h7 h8 h
    simp only [run, hasKey_of_item h1, h1, hasKey_of_item h2, h2, h3, not_true,
      if_false, h4, hasKey_of_item h5, h5] at h
    cases hw1 : run fuel (.walkItem left) scope
        (if (⟨nm, scope, none⟩ : NameRec) ∈ st.names then st
         else { st with names := st.names ++ [⟨nm, scope, none⟩] }) with
    | error e => simp [hw1] at h
    | ok st2 =>
      simp only [hw1] at h
      cases hr : expr.item "right" with
      | error e => simp [hr] at h
      | ok right =>
        simp only [hr] at h
        cases hw2 : run fuel (.walkItem right) scope st2 with
        | error e => simp [hw2] at h
        | ok st3 =>
          simp only [hw2] at h
          have hmem1 : (⟨nm, scope, none⟩ : NameRec) ∈
              (if (⟨nm, scope, none⟩ : NameRec) ∈ st.names then st
               else { st with names := st.names ++ [⟨nm, scope, none⟩] }).names := by
            split
            · assumption
            · exact List.mem_append_right _ (List.mem_singleton_self _)
          obtain ⟨t2, ht2⟩ := (run_ok_inv hw1).1.1
          obtain ⟨t3, ht3⟩ := (run_ok_inv hw2).1.1
          obtain ⟨e1, -, -, -, -, -, -⟩ := set_breakpoint_ok h
          refine ⟨?_, set_breakpoint_mem h6 h7 h8 h⟩
          rw [e1, ht3, ht2]
          exact List.mem_append_left _ (List.mem_append_left _ hmem1)

/-- Witness for C7: analyzing the single statement `x = 2;` records the
binding `(x, None)` and the AssignmentPoint at line 2. -/
theorem C7_operator_filter_witness :
    (⟨Val.str "x", Val.null, none⟩ : NameRec) ∈
      ([⟨Val.str "x", Val.null, none⟩] : List NameRec) ∧
    (⟨ASSIGN_BREAKPOINT, Val.num 2, Val.null⟩ : BreakpointRec) ∈
      ([⟨ASSIGN_BREAKPOINT, Val.num 2, Val.null⟩] : List BreakpointRec) :=
  C7_operator_filter.2.2.2 3 (mkAssign "=" (mkIdent "x") (mkLiteral (.num 2) "2" 2) 2)
    Val.null _ _ _ _ _ _ _ ⟨[], [], [], [], [], none, Val.null⟩
    ⟨[⟨Val.str "x", Val.null, none⟩], [], [⟨ASSIGN_BREAKPOINT, Val.num 2, Val.null⟩],
     [], [], none, Val.null⟩
    rfl rfl (by decide) rfl rfl rfl rfl rfl rfl

/-- Evaluating the dispatcher on one `x = true;` statement: with enough
fuel it records the binding (deduplicated) and then the AssignmentPoint
breakpoint. -/
theorem walkItem_assign (x : String) (n : Nat) (fuel : Nat) (scope : Val) (st : ASTState) :
    run (fuel + 4) (.walkItem (mkAssignLine x n)) scope st =
      set_breakpoint (mkAssignLine x n) scope ASSIGN_BREAKPOINT
        (if (⟨Val.str x, scope, none⟩ : NameRec) ∈ st.names then st
         else { st with names := st.names ++ [⟨Val.str x, scope, none⟩] }) := rfl

/-- With fuel below the dispatch depth the walk reports exhaustion (the
artifact of the bounded embedding, ruled out by the callers). -/
theorem walkItem_assign_low (x : String) (n : Nat) (scope : Val) (st : ASTState) :
    run 0 (.walkItem (mkAssignLine x n)) scope st = .error .fuelExhausted ∧
    run 1 (.walkItem (mkAssignLine x n)) scope st = .error .fuelExhausted ∧
    run 2 (.walkItem (mkAssignLine x n)) scope st = .error .fuelExhausted ∧
    run 3 (.walkItem (mkAssignLine x n)) scope st = .error .fuelExhausted :=
  ⟨rfl, rfl, rfl, rfl⟩

/-- `set_breakpoint` on the `x = true;` statement node. -/
theorem set_breakpoint_assignLine (x : String) (n : Nat) (ty : Nat) (scope : Val)
    (st : ASTState) :
    set_breakpoint (mkAssignLine x n) scope ty st =
      .ok (if (⟨ty, Val.num n, scope⟩ : BreakpointRec) ∈ st.breakpoints then st
           else { st with breakpoints := st.breakpoints ++ [⟨ty, Val.num n, scope⟩] }) := rfl

/-- Walking a list of `x = true;` statements on pairwise distinct lines
appends one AssignmentPoint breakpoint per line and at most one binding
for `x`, and leaves the value-assignments untouched. -/
theorem walkList_assign (x : String) :
    ∀ (lines : List Nat) (fuel : Nat) (scope : Val) (st st' : ASTState),
      lines.Nodup →
      (∀ n ∈ lines,
        (⟨ASSIGN_BREAKPOINT, Val.num n, scope⟩ : BreakpointRec) ∉ st.breakpoints) →
      run fuel (.walkList (lines.map (mkAssignLine x))) scope st = .ok st' →
      st'.breakpoints = st.breakpoints ++
          lines.map (fun m : Nat => (⟨ASSIGN_BREAKPOINT, Val.num m, scope⟩ : BreakpointRec)) ∧
      st'.names = (if lines = [] then st.names
                   else if (⟨Val.str x, scope, none⟩ : NameRec) ∈ st.names then st.names
                   else st.names ++ [⟨Val.str x, scope, none⟩]) ∧
      st'.assignments = st.assignments := by
  intro lines
  induction lines with
  | nil =>
    intro fuel scope st st' hnd hbp h
    cases fuel with
    | zero => simp [run] at h
    | succ f =>
      simp only [List.map_nil, run] at h
      injection h with h; subst h
      simp
  | cons n rest ih =>
    intro fuel scope st st' hnd hbp h
    cases fuel with
    | zero => simp [run] at h
    | succ f =>
      simp only [List.map_cons, run] at h
      rcases Nat.lt_or_ge f 4 with hf | hf
      · interval_cases f <;>
          simp [(walkItem_assign_low x n scope st).1,
                (walkItem_assign_low x n scope st).2.1,
                (walkItem_assign_low x n scope st).2.2.1,
                (walkItem_assign_low x n scope st).2.2.2] at h
      · obtain ⟨m, rfl⟩ := Nat.exists_eq_add_of_le hf
        rw [Nat.add_comm 4 m] at h
        have hbpn := hbp n (List.mem_cons_self n rest)
        have hbp' : ∀ n' ∈ rest,
            (⟨ASSIGN_BREAKPOINT, Val.num n', scope⟩ : BreakpointRec) ∉
              st.breakpoints ++ [(⟨ASSIGN_BREAKPOINT, Val.num n, scope⟩ : BreakpointRec)] := by
          intro n' hn'
          have hne : n' ≠ n := by
            rintro rfl
            exact (List.nodup_cons.mp hnd).1 hn'
          simp only [List.mem_append, List.mem_singleton]
          rintro (hc | hc)
          · exact hbp n' (List.mem_cons_of_mem _ hn') hc
          · refine hne ?_
            injection hc with e1 e2 e3
            injection e2 with e4
            exact_mod_cast e4
        by_cases hxm : (⟨Val.str x, scope, none⟩ : NameRec) ∈ st.names
        · simp only [walkItem_assign, set_breakpoint_assignLine, if_pos hxm,
            if_neg hbpn] at h
          obtain ⟨ihb, ihn, iha⟩ := ih (m + 4) scope _ st' (List.nodup_cons.mp hnd).2 hbp' h
          refine ⟨?_, ?_, iha⟩
          · rw [ihb]
            simp
          · rw [ihn]
            split
            · simp [if_pos hxm]
            · simp [if_pos hxm]
        · simp only [walkItem_assign, set_breakpoint_assignLine, if_neg hxm,
            if_neg hbpn] at h
          obtain ⟨ihb, ihn, iha⟩ := ih (m + 4) scope _ st' (List.nodup_cons.mp hnd).2 hbp' h
          refine ⟨?_, ?_, iha⟩
          · rw [ihb]
            simp
          · rw [ihn]
            split
            · simp
            · simp

/-- C9: a script consisting of N textually distinct recognized
assignments to the same bare identifier on N pairwise distinct lines
yields exactly N AssignmentPoint breakpoints — one per line, in source
order — and exactly one binding for that identifier. -/
theorem C9_assignment_breakpoints (x : String) (lines : List Nat) (w : Val)
    (st' : ASTState) (hnd : lines.Nodup) (hne : lines ≠ [])
    (h : AST.new (.ok (mkProgram (lines.map (mkAssignLine x)))) w none = .ok st') :
    st'.breakpoints =
      lines.map (fun m : Nat => (⟨ASSIGN_BREAKPOINT, Val.num m, Val.null⟩ : BreakpointRec)) ∧
    st'.breakpoints.length = lines.length ∧
    st'.names = [⟨Val.str x, Val.null, none⟩] := by
  obtain ⟨g, hg⟩ : ∃ g, FUEL (mkProgram (lines.map (mkAssignLine x))) = g + 1 := by
    refine ⟨FUEL (mkProgram (lines.map (mkAssignLine x))) - 1, ?_⟩
    have h1 : 1 ≤ FUEL (mkProgram (lines.map (mkAssignLine x))) := by
      unfold FUEL
      omega
    omega
  simp only [AST.new] at h
  rw [hg] at h
  simp only [run] at h
  obtain ⟨hb, hn, -⟩ := walkList_assign x lines _ Val.null
    ⟨[], [], [], [], [], none, w⟩ st' hnd (by intro n hn; simp) h
  simp only [hne, if_neg hne] at hn
  refine ⟨by simpa using hb, ?_, by simpa using hn⟩
  rw [hb]
  simp

/-- Witness for C9: three assignments to `x` on lines 1, 2, 3 produce
exactly three AssignmentPoint breakpoints and one binding. -/
theorem C9_assignment_breakpoints_witness :
    ([⟨ASSIGN_BREAKPOINT, Val.num 1, Val.null⟩, ⟨ASSIGN_BREAKPOINT, Val.num 2, Val.null⟩,
      ⟨ASSIGN_BREAKPOINT, Val.num 3, Val.null⟩] : List BreakpointRec) =
      [1, 2, 3].map (fun m : Nat => (⟨ASSIGN_BREAKPOINT, Val.num m, Val.null⟩ : BreakpointRec)) ∧
    ([⟨ASSIGN_BREAKPOINT, Val.num 1, Val.null⟩, ⟨ASSIGN_BREAKPOINT, Val.num 2, Val.null⟩,
      ⟨ASSIGN_BREAKPOINT, Val.num 3, Val.null⟩] : List BreakpointRec).length =
      [1, 2, 3].length ∧
    ([⟨Val.str "x", Val.null, none⟩] : List NameRec) = [⟨Val.str "x", Val.null, none⟩] :=
  C9_assignment_breakpoints "x" [1, 2, 3] Val.null
    ⟨[⟨Val.str "x", Val.null, none⟩], [],
     [⟨ASSIGN_BREAKPOINT, Val.num 1, Val.null⟩, ⟨ASSIGN_BREAKPOINT, Val.num 2, Val.null⟩,
      ⟨ASSIGN_BREAKPOINT, Val.num 3, Val.null⟩], [], [], none, Val.null⟩
    (by decide) (by decide) rfl

end Thug
